import Mathlib

/-!
# Switch-over initial sync (`swo/initialsync.go`) and calendar subscription filter (`calsub/http.go`)

A shallow embedding of

* `Manager.InitialSync` and `Manager.SyncTableInit` as state-passing functions over an
  arbitrary environment (the two database connections and the progress sink), recording
  every effect together with its outcome in a trace;
* `lineCount.Write` / `lineCount.Lines`;
* the progress goroutine of `SyncTableInit`, over a discrete clock, with the `time.Timer`
  it creates;
* the in-place filter loop of `Store.ServeICalData`, over an explicit heap of backing arrays.
-/

namespace Swo

/-! ## Errors -/

/-- A Go `error` value: either a leaf error, known by its message only, or the
`*fmt.wrapError` that `fmt.Errorf` builds for a format containing `%w` (message and wrapped
error). -/
inductive GoError where
  | base (msg : String)
  | wrapError (msg : String) (err : GoError)
  deriving DecidableEq, Repr

/-- The method `Error()`. -/
def GoError.Error : GoError → String
  | .base msg => msg
  | .wrapError msg _ => msg

/-- The method `Unwrap()` (what `errors.Unwrap` returns). -/
def GoError.Unwrap : GoError → Option GoError
  | .base _ => none
  | .wrapError _ err => some err

/-- The call `fmt.Errorf(text + "%w", err)`, where `text` is the already formatted text that
precedes the `%w` verb: the message is `text` followed by `err.Error()`, and the result
wraps `err`. -/
def Errorf (text : String) (err : GoError) : GoError :=
  .wrapError (text ++ err.Error) err

/-! ## Tables -/

/-- Modelled from the spec: the type `Table` of package `swo` is declared outside the files at
hand; the spec gives the table descriptor as a name, a quoted identifier and a skip-sync
predicate, which are the three members the code uses (`Name`, `QuotedName()`, `SkipSync()`). -/
structure Table where
  Name : String
  QuotedName : String
  SkipSync : Bool
  deriving DecidableEq, Repr

/-! ## Effects and environment -/

/-- One observable effect of `InitialSync`, with its outcome (`none` is a nil error). -/
inductive Event where
  /-- The call `oldConn.BeginTx` (read-only, serializable, deferrable). -/
  | srcBegin (err : Option GoError)
  /-- The call `newConn.BeginTx`. -/
  | dstBegin (err : Option GoError)
  /-- The call `dstTx.Exec(ctx, sql)`. -/
  | dstTxExec (sql : String) (err : Option GoError)
  /-- The call `swogrp.Progressf` made by `InitialSync`. -/
  | progress (msg : String)
  /-- Entry of `m.SyncTableInit(ctx, table, srcTx, dstTx)`. -/
  | syncCall (table : Table)
  /-- The call `srcTx.QueryRow(ctx, sql).Scan(&rowCount)`. -/
  | countRows (sql : String) (rowCount : Int) (err : Option GoError)
  /-- The three goroutines of one table, up to `wg.Wait()`: the `CopyTo` statement with its
  error `srcErr`, the `CopyFrom` statement with its error `dstErr`. -/
  | copy (toSql fromSql : String) (srcErr dstErr : Option GoError)
  /-- Return of `m.SyncTableInit`. -/
  | syncReturn (table : Table) (err : Option GoError)
  /-- The call `srcTx.Commit`. -/
  | srcCommit (err : Option GoError)
  /-- The call `dstTx.Commit`. -/
  | dstCommit (err : Option GoError)
  /-- The call `newConn.Exec(ctx, sql)`. -/
  | newConnExec (sql : String) (err : Option GoError)
  /-- The deferred `dstTx.Rollback`. -/
  | dstRollback
  /-- The deferred `srcTx.Rollback`. -/
  | srcRollback
  deriving DecidableEq, Repr

/-- The world `InitialSync` runs against: every operation of the two connections, of the two
transactions and of the progress sink is an arbitrary function of an arbitrary state. -/
structure Env (σ : Type) where
  oldConnBeginTx : σ → Option GoError × σ
  newConnBeginTx : σ → Option GoError × σ
  dstTxExec : String → σ → Option GoError × σ
  Progressf : String → σ → σ
  srcTxQueryRowScan : String → σ → (Int × Option GoError) × σ
  /-- The concurrent part of `SyncTableInit`: given the two copy statements and the row count
  it runs the three goroutines to completion and yields `(srcErr, dstErr)`. -/
  copyGoroutines : Table → String → String → Int → σ → (Option GoError × Option GoError) × σ
  srcTxCommit : σ → Option GoError × σ
  dstTxCommit : σ → Option GoError × σ
  newConnExec : String → σ → Option GoError × σ
  srcTxRollback : σ → Option GoError × σ
  dstTxRollback : σ → Option GoError × σ

/-- The state of a run: the state of the world and the effects so far, oldest first. -/
structure Run (σ : Type) where
  st : σ
  trace : List Event

variable {σ : Type}

/-- Append an effect to the trace. -/
def Run.log (r : Run σ) (ev : Event) (st : σ) : Run σ :=
  ⟨st, r.trace ++ [ev]⟩

/-! ## `SyncTableInit` -/

/-- The body of `Manager.SyncTableInit` (lines 93-146): the row count query, then the three
goroutines and `wg.Wait()`, then the choice of the error. -/
def SyncTableInit.body (env : Env σ) (t : Table) (r : Run σ) : Option GoError × Run σ :=
  let countSql := "select count(*) from " ++ t.QuotedName
  match env.srcTxQueryRowScan countSql r.st with
  | ((rowCount, some err), st) =>
    (some (Errorf "count rows: " err), r.log (.countRows countSql rowCount (some err)) st)
  | ((rowCount, none), st) =>
    let r := r.log (.countRows countSql rowCount none) st
    let toSql := "copy " ++ t.QuotedName ++ " to stdout"
    let fromSql := "copy " ++ t.QuotedName ++ " from stdin"
    match env.copyGoroutines t toSql fromSql rowCount r.st with
    | ((srcErr, dstErr), st) =>
      let r := r.log (.copy toSql fromSql srcErr dstErr) st
      match dstErr with
      | some err => (some (Errorf "copy to dst: " err), r)
      | none =>
        match srcErr with
        | some err => (some (Errorf "copy from src: " err), r)
        | none => (none, r)

/-- The method `Manager.SyncTableInit`, with its entry and its return recorded in the trace. -/
def SyncTableInit (env : Env σ) (t : Table) (r : Run σ) : Option GoError × Run σ :=
  match SyncTableInit.body env t (r.log (.syncCall t) r.st) with
  | (res, r) => (res, r.log (.syncReturn t res) r.st)

/-! ## `InitialSync` -/

/-- The loop `for _, table := range tables` of `InitialSync` (lines 38-47). -/
def InitialSync.tableLoop (env : Env σ) : List Table → Run σ → Option GoError × Run σ
  | [], r => (none, r)
  | table :: rest, r =>
    if table.SkipSync then
      InitialSync.tableLoop env rest r
    else
      match SyncTableInit env table r with
      | (some err, r) => (some (Errorf ("sync table " ++ table.Name ++ ": ") err), r)
      | (none, r) => InitialSync.tableLoop env rest r

/-- Lines 32-71 of `InitialSync`: what runs once both transactions are open and both
rollbacks are deferred. -/
def InitialSync.withBothTx (env : Env σ) (tables : List Table) (r : Run σ) :
    Option GoError × Run σ :=
  match env.dstTxExec "SET CONSTRAINTS ALL DEFERRED" r.st with
  | (some err, st) =>
    (some (Errorf "defer constraints: " err),
      r.log (.dstTxExec "SET CONSTRAINTS ALL DEFERRED" (some err)) st)
  | (none, st) =>
    match InitialSync.tableLoop env tables
        (r.log (.dstTxExec "SET CONSTRAINTS ALL DEFERRED" none) st) with
    | (some err, r) => (some err, r)
    | (none, r) =>
      let r := r.log (.progress "commit initial sync") (env.Progressf "commit initial sync" r.st)
      match env.srcTxCommit r.st with
      | (some err, st) => (some (Errorf "commit src tx: " err), r.log (.srcCommit (some err)) st)
      | (none, st) =>
        let r := r.log (.srcCommit none) st
        match env.dstTxCommit r.st with
        | (some err, st) => (some (Errorf "commit dst tx: " err), r.log (.dstCommit (some err)) st)
        | (none, st) =>
          let r := r.log (.dstCommit none) st
          let r := r.log (.progress "vacuum analyze") (env.Progressf "vacuum analyze" r.st)
          match env.newConnExec "vacuum analyze" r.st with
          | (some err, st) =>
            (some (Errorf "vacuum analyze: " err), r.log (.newConnExec "vacuum analyze" (some err)) st)
          | (none, st) => (none, r.log (.newConnExec "vacuum analyze" none) st)

/-- Lines 26-71 of `InitialSync`: what runs once the source transaction is open and its
rollback is deferred. The deferred `dstTx.Rollback` runs when the rest returns, whatever it
returns; its own result is discarded. -/
def InitialSync.withSrcTx (env : Env σ) (tables : List Table) (r : Run σ) :
    Option GoError × Run σ :=
  match env.newConnBeginTx r.st with
  | (some err, st) => (some (Errorf "begin dst tx: " err), r.log (.dstBegin (some err)) st)
  | (none, st) =>
    match InitialSync.withBothTx env tables (r.log (.dstBegin none) st) with
    | (res, r) => (res, r.log .dstRollback (env.dstTxRollback r.st).2)

/-- The method `Manager.InitialSync`. The deferred `srcTx.Rollback` runs last, after the deferred
`dstTx.Rollback`; its own result is discarded. -/
def InitialSync (env : Env σ) (tables : List Table) (r : Run σ) : Option GoError × Run σ :=
  match env.oldConnBeginTx r.st with
  | (some err, st) => (some (Errorf "begin src tx: " err), r.log (.srcBegin (some err)) st)
  | (none, st) =>
    match InitialSync.withSrcTx env tables (r.log (.srcBegin none) st) with
    | (res, r) => (res, r.log .srcRollback (env.srcTxRollback r.st).2)

/-- A run of `InitialSync` from world state `s` with an empty trace: the returned error and
the trace of effects. -/
def runInitialSync (env : Env σ) (tables : List Table) (s : σ) : Option GoError × List Event :=
  match InitialSync env tables ⟨s, []⟩ with
  | (res, r) => (res, r.trace)

/-! ## Reading a trace -/

/-- The effects inside one `SyncTableInit`: the row count query and the copy. -/
def Event.isInner : Event → Bool
  | .countRows _ _ _ => true
  | .copy _ _ _ _ => true
  | _ => false

/-- The entries and returns of `SyncTableInit`. -/
def Event.isCallOrReturn : Event → Bool
  | .syncCall _ => true
  | .syncReturn _ _ => true
  | _ => false

/-- Every effect of the table loop. -/
def Event.isSync (ev : Event) : Bool := ev.isInner || ev.isCallOrReturn

/-- The calls of `dstTx.Commit`. -/
def Event.isDstCommit : Event → Bool
  | .dstCommit _ => true
  | _ => false

/-- The calls of `newConn.Exec`. -/
def Event.isNewConnExec : Event → Bool
  | .newConnExec _ _ => true
  | _ => false

/-- The entries and returns of a series of table syncs that all return nil: each table is
entered, returns nil, and only then the next one is entered. -/
def syncedOk : List Table → List Event
  | [] => []
  | t :: ts => .syncCall t :: .syncReturn t none :: syncedOk ts

/-- The tables of a list that are not flagged skip-sync, in the order of the list. -/
def notSkipped (tables : List Table) : List Table :=
  tables.filter (fun t => !t.SkipSync)

/-- The seven steps of `InitialSync` that can fail. -/
inductive Phase where
  | beginSrc
  | beginDst
  | deferConstraints
  | syncTable
  | commitSrc
  | commitDst
  | vacuumAnalyze
  deriving DecidableEq, Repr

/-- The text that precedes the error of a failing step in the error `InitialSync` returns;
`name` is the name of the table, used by the table sync step only. -/
def Phase.text (name : String) : Phase → String
  | .beginSrc => "begin src tx: "
  | .beginDst => "begin dst tx: "
  | .deferConstraints => "defer constraints: "
  | .syncTable => "sync table " ++ name ++ ": "
  | .commitSrc => "commit src tx: "
  | .commitDst => "commit dst tx: "
  | .vacuumAnalyze => "vacuum analyze: "

/-- The step an effect is the outcome of, with the table name (empty when the step has none)
and the error the step returned; `none` for the effects that are not the outcome of a step
(progress reports, the effects inside a table sync, the deferred rollbacks). -/
def Event.step : Event → Option (Phase × String × Option GoError)
  | .srcBegin err => some (.beginSrc, "", err)
  | .dstBegin err => some (.beginDst, "", err)
  | .dstTxExec _ err => some (.deferConstraints, "", err)
  | .syncReturn t err => some (.syncTable, t.Name, err)
  | .srcCommit err => some (.commitSrc, "", err)
  | .dstCommit err => some (.commitDst, "", err)
  | .newConnExec _ err => some (.vacuumAnalyze, "", err)
  | _ => none

/-- The error a step returned, if the effect is the outcome of a failing step. -/
def Event.stepError (ev : Event) : Option GoError :=
  match ev.step with
  | some (_, _, err) => err
  | none => none

/-! ## The shape of a trace -/

/-- The effects the table loop adds to the trace, with the error it leaves the loop with. -/
inductive LoopTrace : List Table → List Event → Option GoError → Prop where
  | done : LoopTrace [] [] none
  | skip {t ts L res} : t.SkipSync = true → LoopTrace ts L res → LoopTrace (t :: ts) L res
  | ok {t ts B L res} : t.SkipSync = false → (∀ ev ∈ B, ev.isInner = true) →
      LoopTrace ts L res →
      LoopTrace (t :: ts) (Event.syncCall t :: B ++ Event.syncReturn t none :: L) res
  | fail {t ts B e} : t.SkipSync = false → (∀ ev ∈ B, ev.isInner = true) →
      LoopTrace (t :: ts) (Event.syncCall t :: B ++ [Event.syncReturn t (some e)])
        (some (Errorf ("sync table " ++ t.Name ++ ": ") e))

/-- The statement that defers the constraints of the destination transaction. -/
def deferSql : String := "SET CONSTRAINTS ALL DEFERRED"

/-- The effects of lines 32-71 of `InitialSync`, with the error returned. -/
inductive BodyTrace (tables : List Table) : List Event → Option GoError → Prop where
  | deferFail (e : GoError) :
      BodyTrace tables [.dstTxExec deferSql (some e)] (some (Errorf "defer constraints: " e))
  | syncFail {L : List Event} {err : GoError} : LoopTrace tables L (some err) →
      BodyTrace tables (.dstTxExec deferSql none :: L) (some err)
  | srcCommitFail {L : List Event} (e : GoError) : LoopTrace tables L none →
      BodyTrace tables
        (.dstTxExec deferSql none :: L ++ [.progress "commit initial sync", .srcCommit (some e)])
        (some (Errorf "commit src tx: " e))
  | dstCommitFail {L : List Event} (e : GoError) : LoopTrace tables L none →
      BodyTrace tables
        (.dstTxExec deferSql none :: L ++
          [.progress "commit initial sync", .srcCommit none, .dstCommit (some e)])
        (some (Errorf "commit dst tx: " e))
  | vacuumFail {L : List Event} (e : GoError) : LoopTrace tables L none →
      BodyTrace tables
        (.dstTxExec deferSql none :: L ++
          [.progress "commit initial sync", .srcCommit none, .dstCommit none,
            .progress "vacuum analyze", .newConnExec "vacuum analyze" (some e)])
        (some (Errorf "vacuum analyze: " e))
  | success {L : List Event} : LoopTrace tables L none →
      BodyTrace tables
        (.dstTxExec deferSql none :: L ++
          [.progress "commit initial sync", .srcCommit none, .dstCommit none,
            .progress "vacuum analyze", .newConnExec "vacuum analyze" none])
        none

/-- The effects of a whole run of `InitialSync`, with the error returned. -/
inductive ExecTrace (tables : List Table) : List Event → Option GoError → Prop where
  | beginSrcFail (e : GoError) :
      ExecTrace tables [.srcBegin (some e)] (some (Errorf "begin src tx: " e))
  | beginDstFail (e : GoError) :
      ExecTrace tables [.srcBegin none, .dstBegin (some e), .srcRollback]
        (some (Errorf "begin dst tx: " e))
  | body {B : List Event} {res : Option GoError} : BodyTrace tables B res →
      ExecTrace tables (.srcBegin none :: .dstBegin none :: B ++ [.dstRollback, .srcRollback]) res

/-! ## Scripted worlds -/

/-- A world without state, in which each operation returns the outcome the script lists; the
row count query and the two copies are scripted by table (by the statement, for the query). -/
structure Script where
  srcBegin : Option GoError := none
  dstBegin : Option GoError := none
  deferConstraints : Option GoError := none
  count : String → Option GoError := fun _ => none
  rowCount : Int := 0
  copySrc : String → Option GoError := fun _ => none
  copyDst : String → Option GoError := fun _ => none
  srcCommit : Option GoError := none
  dstCommit : Option GoError := none
  vacuum : Option GoError := none

/-- The world of a script. -/
def Script.env (sc : Script) : Env Unit where
  oldConnBeginTx := fun s => (sc.srcBegin, s)
  newConnBeginTx := fun s => (sc.dstBegin, s)
  dstTxExec := fun _ s => (sc.deferConstraints, s)
  Progressf := fun _ s => s
  srcTxQueryRowScan := fun sql s => ((sc.rowCount, sc.count sql), s)
  copyGoroutines := fun t _ _ _ s => ((sc.copySrc t.Name, sc.copyDst t.Name), s)
  srcTxCommit := fun s => (sc.srcCommit, s)
  dstTxCommit := fun s => (sc.dstCommit, s)
  newConnExec := fun _ s => (sc.vacuum, s)
  srcTxRollback := fun s => (none, s)
  dstTxRollback := fun s => (none, s)

/-- Three tables, the second of them flagged skip-sync. -/
def sampleTables : List Table :=
  [⟨"users", "\"users\"", false⟩, ⟨"switchover_state", "\"switchover_state\"", true⟩,
    ⟨"alerts", "\"alerts\"", false⟩]

/-- The world in which every operation succeeds. -/
def allOk : Script := {}

/-- The world in which the copy into the destination fails for table `alerts`. -/
def alertsCopyFails : Script :=
  { copyDst := fun name => if name = "alerts" then some (.base "unique violation") else none }

/-- The world in which the commit of the source transaction fails. -/
def srcCommitFails : Script :=
  { srcCommit := some (.base "could not serialize access") }

/-- The world in which the commit of the destination transaction fails. -/
def dstCommitFails : Script :=
  { dstCommit := some (.base "foreign key violation") }

/-- The world in which the final `vacuum analyze` fails. -/
def vacuumFails : Script :=
  { vacuum := some (.base "out of disk") }

/-- The world in which the source transaction cannot be begun. -/
def srcBeginFails : Script :=
  { srcBegin := some (.base "connection refused") }

/-- The world in which the destination transaction cannot be begun. -/
def dstBeginFails : Script :=
  { dstBegin := some (.base "connection refused") }

/-! ## `lineCount` -/

/-- A byte. -/
abbrev Byte := UInt8

/-- The call `bytes.Count(p, sep)` for a separator `sep` of the single byte `c`, which is how
`lineCount.Write` calls it (`sep` is `[]byte("\n")`): the number of bytes of `p` equal to
`c`. -/
def bytesCount : List Byte → Byte → Nat
  | [], _ => 0
  | b :: bs, c => (if b = c then 1 else 0) + bytesCount bs c

/-- A Go `int` of `bits` bits (32 or 64, by platform) holding the integer `x`: the value of
the same residue in the range from `-2^(bits-1)` to `2^(bits-1) - 1`, which is what signed
arithmetic that overflows leaves. -/
def wrapInt (bits : Nat) (x : Int) : Int :=
  (x + 2 ^ (bits - 1)) % 2 ^ bits - 2 ^ (bits - 1)

/-- The struct `lineCount`. The mutex `mx` guards every access to `n`; in a sequence of calls
it has no effect and is left out. The counter `n` is a Go `int`: the methods keep it in the
range of `int`. -/
structure lineCount where
  n : Int
  deriving DecidableEq, Repr

/-- The method `lineCount.Write`, for an `int` of `bits` bits: returns `(len(p), nil)` and
adds the newlines of `p` to the counter, with the wrap-around of `+=` on `int`. The length of
a slice and the count of `bytes.Count` are themselves `int` values. -/
def lineCount.Write (bits : Nat) (lc : lineCount) (p : List Byte) :
    (Int × Option GoError) × lineCount :=
  ((p.length, none), { lc with n := wrapInt bits (lc.n + bytesCount p 10) })

/-- The method `lineCount.Lines`. -/
def lineCount.Lines (lc : lineCount) : Int := lc.n

/-- A sequence of calls of `Write`, in order: what each call returns, and the counter after
the last one. -/
def lineCount.writeAll (bits : Nat) (lc : lineCount) :
    List (List Byte) → List (Int × Option GoError) × lineCount
  | [] => ([], lc)
  | p :: ps =>
    match lc.Write bits p with
    | (res, lc1) =>
      match lineCount.writeAll bits lc1 ps with
      | (rs, lc2) => (res :: rs, lc2)

/-- A stream of `2^63` newline bytes, cut into `2^33` chunks of `2^30` bytes. -/
def overflowChunks : List (List Byte) :=
  List.replicate (2 ^ 33) (List.replicate (2 ^ 30) 10)

/-! ## The progress goroutine of `SyncTableInit` -/

/-- A `time.Timer`, on a clock that counts seconds: the time at which the runtime will send on
the channel `C`, or `none` once that one send has been made. Only `Reset` arms a timer again,
and the goroutine never calls it. -/
structure Timer where
  fireAt : Option Nat
  deriving DecidableEq, Repr

/-- The call `time.NewTimer(d)` at time `now`: one send on `C`, `d` seconds later. -/
def NewTimer (now d : Nat) : Timer := ⟨some (now + d)⟩

/-- The branch a `select` of the goroutine takes. -/
inductive Selected where
  /-- The case `<-ctx.Done()`. -/
  | done
  /-- The case `<-prog.C`, at the time the value is received. -/
  | tick (time : Nat)
  deriving DecidableEq, Repr

/-- The `select` of the goroutine, for a context that is not cancelled up to and including
time `horizon` and is cancelled some time later: it receives from `prog.C` when the timer
still has its send to make and makes it by `horizon`; otherwise nothing arrives on `prog.C`
and the goroutine stays blocked until `ctx.Done()`. -/
def selectDoneOrTimer (prog : Timer) (horizon : Nat) : Selected × Timer :=
  match prog.fireAt with
  | some time => if time ≤ horizon then (.tick time, { prog with fireAt := none }) else (.done, prog)
  | none => (.done, prog)

/-- The text `fmt.Sprintf("syncing table %s (%d/%d)", t.Name, lines, rowCount)`. -/
def progressMessage (t : Table) (lines rowCount : Int) : String :=
  "syncing table " ++ t.Name ++ " (" ++ toString lines ++ "/" ++ toString rowCount ++ ")"

/-- The endless loop of the goroutine (lines 111-120), a report and then the `select`,
started at time `now`: the progress reports it makes, each with the time it is made at.
`lines time` is what `lc.Lines()` returns at that time. Each turn of the loop uses one unit
of `fuel`. -/
def progressLoop (t : Table) (rowCount : Int) (lines : Nat → Int) (horizon : Nat) :
    Nat → Nat → Timer → List (Nat × String)
  | 0, _, _ => []
  | fuel + 1, now, prog =>
    (now, progressMessage t (lines now) rowCount) ::
      match selectDoneOrTimer prog horizon with
      | (.tick time, prog) => progressLoop t rowCount lines horizon fuel time prog
      | (.done, _) => []

/-- The progress reports of one table sync whose context stays uncancelled through `k`
intervals of 2 seconds (lines 107-121): the timer is created at time 0 for 2 seconds, and the
loop has fuel for `k + 2` turns, one more than the `k + 1` reports a report per interval
would take. -/
def progressReports (t : Table) (rowCount : Int) (lines : Nat → Int) (k : Nat) :
    List (Nat × String) :=
  progressLoop t rowCount lines (2 * k) (k + 2) 0 (NewTimer 0 2)

end Swo

namespace Calsub

/-! ## The filter of `ServeICalData`

The types `oncall.Shift` and `Subscription` are declared outside the files at hand. The filter
needs a shift to have a zero value and a field `UserID` that can be compared with the
`UserID` of the subscription, and nothing else: `Shift` is any type with a zero value
(`default`), `ID` any type with a decidable equality, and `UserID : Shift → ID` the field. -/

/-- The memory that holds the backing arrays of the slices. -/
abbrev Heap (Shift : Type) := List (List Shift)

/-- A slice header: the backing array it points into (seen from the first element of the
slice on, so that the array has `cap` cells), the length and the capacity. -/
structure Slice where
  arr : Nat
  len : Nat
  cap : Nat
  deriving DecidableEq, Repr

variable {Shift ID : Type}

/-- The elements of a slice. -/
def Slice.toList (h : Heap Shift) (s : Slice) : List Shift :=
  (h.getD s.arr []).take s.len

/-- The element `s[i]`, read from the backing array. -/
def Slice.index [Inhabited Shift] (h : Heap Shift) (s : Slice) (i : Nat) : Shift :=
  (h.getD s.arr []).getD i default

/-- The built-in `append(s, x)`: when the capacity allows it, `x` is written into the backing
array of `s` right after its last element; otherwise a larger array is allocated, the
elements are copied and `x` is added. -/
def append [Inhabited Shift] (h : Heap Shift) (s : Slice) (x : Shift) : Heap Shift × Slice :=
  if s.len < s.cap then
    (h.set s.arr ((h.getD s.arr []).set s.len x), { s with len := s.len + 1 })
  else
    let newcap := 2 * s.cap + 1
    (h ++ [s.toList h ++ x :: List.replicate (newcap - (s.len + 1)) default],
      { arr := h.length, len := s.len + 1, cap := newcap })

/-- One turn of the loop `for _, s := range shifts` (lines 38-43): `s` is read from the
backing array as it is at this turn. -/
def loopStep [Inhabited Shift] [DecidableEq ID] (UserID : Shift → ID) (userID : ID)
    (shifts : Slice) (st : Heap Shift × Slice) (i : Nat) : Heap Shift × Slice :=
  let s := shifts.index st.1 i
  if UserID s != userID then st
  else append st.1 st.2 s

/-- Lines 36-43 of `ServeICalData`: `filtered := shifts[:0]`, then the loop over the
`len(shifts)` elements; the result is the memory and the slice `filtered` that is passed to
`renderICalFromShifts`. `userID` is `cs.UserID`. -/
def filterShifts [Inhabited Shift] [DecidableEq ID] (UserID : Shift → ID) (userID : ID)
    (h : Heap Shift) (shifts : Slice) : Heap Shift × Slice :=
  let filtered : Slice := { shifts with len := 0 }
  (List.range shifts.len).foldl (loopStep UserID userID shifts) (h, filtered)

/-- The loop invariant after `i` turns, `A` being the backing array of `shifts` before the
loop: `filtered` still points into the array of `shifts`, holds the matching shifts among
the first `i`, and the cells from `i` on are untouched. -/
def Inv [DecidableEq ID] (UserID : Shift → ID) (userID : ID) (A : List Shift) (shifts : Slice)
    (i : Nat) (st : Heap Shift × Slice) : Prop :=
  st.2.arr = shifts.arr ∧ st.2.cap = shifts.cap ∧ st.2.len ≤ i ∧
  (st.1.getD shifts.arr []).length = A.length ∧
  (st.1.getD shifts.arr []).take st.2.len
    = (A.take i).filter (fun s => decide (UserID s = userID)) ∧
  (st.1.getD shifts.arr []).drop i = A.drop i

/-- A sample type of shifts: the user and the hour the shift starts at. -/
structure SampleShift where
  UserID : String
  Start : Nat
  deriving DecidableEq, Repr, Inhabited

/-- A memory with two arrays; the second one holds the shifts of a schedule and one spare
cell. -/
def sampleHeap : Heap SampleShift :=
  [[⟨"x", 9⟩], [⟨"ann", 1⟩, ⟨"bob", 2⟩, ⟨"ann", 3⟩, ⟨"cy", 4⟩, ⟨"ann", 5⟩, ⟨"zed", 6⟩]]

/-- The slice of the first five shifts of the second array. -/
def sampleShifts : Slice := ⟨1, 5, 6⟩

end Calsub

/-! # Theorems -/

namespace Swo

variable {σ : Type}

/-! ## The trace of a run has one of eight shapes -/

theorem SyncTableInit_body_trace (env : Env σ) (t : Table) (r : Run σ) :
    ∃ B, (SyncTableInit.body env t r).2.trace = r.trace ++ B ∧ ∀ ev ∈ B, ev.isInner = true := by
  unfold SyncTableInit.body
  simp only [Run.log]
  have two : ∀ (a b : Event), a.isInner = true → b.isInner = true →
      ∃ B, (r.trace ++ [a]) ++ [b] = r.trace ++ B ∧ ∀ ev ∈ B, ev.isInner = true := by
    intro a b ha hb
    refine ⟨[a, b], List.append_assoc _ _ _, ?_⟩
    intro ev hev
    simp only [List.mem_cons, List.mem_singleton, List.not_mem_nil, or_false] at hev
    rcases hev with rfl | rfl
    · exact ha
    · exact hb
  split
  · exact ⟨[_], rfl, by simp [Event.isInner]⟩
  · split
    · exact two _ _ rfl rfl
    · split
      · exact two _ _ rfl rfl
      · exact two _ _ rfl rfl

theorem SyncTableInit_trace (env : Env σ) (t : Table) (r : Run σ) :
    ∃ B, (SyncTableInit env t r).2.trace
        = r.trace ++ (Event.syncCall t :: B ++ [Event.syncReturn t (SyncTableInit env t r).1]) ∧
      ∀ ev ∈ B, ev.isInner = true := by
  obtain ⟨B, hB, hin⟩ := SyncTableInit_body_trace env t (r.log (.syncCall t) r.st)
  refine ⟨B, ?_, hin⟩
  simp only [SyncTableInit, Run.log] at hB ⊢
  rw [hB]
  simp

theorem tableLoop_trace (env : Env σ) (tables : List Table) (r : Run σ) :
    ∃ L, (InitialSync.tableLoop env tables r).2.trace = r.trace ++ L ∧
      LoopTrace tables L (InitialSync.tableLoop env tables r).1 := by
  induction tables generalizing r with
  | nil => exact ⟨[], by simp [InitialSync.tableLoop], LoopTrace.done⟩
  | cons t ts ih =>
    by_cases hs : t.SkipSync = true
    · obtain ⟨L, hL, hlt⟩ := ih r
      refine ⟨L, ?_, ?_⟩
      · simpa [InitialSync.tableLoop, hs] using hL
      · simpa [InitialSync.tableLoop, hs] using LoopTrace.skip hs hlt
    · have hs2 : t.SkipSync = false := by simpa using hs
      obtain ⟨B, hB, hin⟩ := SyncTableInit_trace env t r
      cases hres : SyncTableInit env t r with
      | mk res r1 =>
        rw [hres] at hB
        cases res with
        | some e =>
          refine ⟨Event.syncCall t :: B ++ [Event.syncReturn t (some e)], ?_, ?_⟩
          · simpa [InitialSync.tableLoop, hs2, hres] using hB
          · simpa [InitialSync.tableLoop, hs2, hres] using LoopTrace.fail hs2 hin
        | none =>
          obtain ⟨L, hL, hlt⟩ := ih r1
          refine ⟨Event.syncCall t :: B ++ Event.syncReturn t none :: L, ?_, ?_⟩
          · simp only [InitialSync.tableLoop, hs2, hres]
            simp at hB ⊢
            rw [hL, hB]; simp
          · simpa [InitialSync.tableLoop, hs2, hres] using LoopTrace.ok hs2 hin hlt

theorem withBothTx_trace (env : Env σ) (tables : List Table) (r : Run σ) :
    ∃ B, (InitialSync.withBothTx env tables r).2.trace = r.trace ++ B ∧
      BodyTrace tables B (InitialSync.withBothTx env tables r).1 := by
  unfold InitialSync.withBothTx
  split
  · exact ⟨_, rfl, BodyTrace.deferFail _⟩
  · rename_i st hdefer
    obtain ⟨L, hL, hlt⟩ := tableLoop_trace env tables
      (r.log (.dstTxExec "SET CONSTRAINTS ALL DEFERRED" none) st)
    split
    · rename_i err r1 hloop
      rw [hloop] at hL hlt
      exact ⟨_, by simpa [Run.log] using hL, BodyTrace.syncFail hlt⟩
    · rename_i r1 hloop
      rw [hloop] at hL hlt
      simp only [Run.log] at hL ⊢
      split
      · exact ⟨_, by simp [hL]; rfl, BodyTrace.srcCommitFail _ hlt⟩
      · split
        · exact ⟨_, by simp [hL]; rfl, BodyTrace.dstCommitFail _ hlt⟩
        · split
          · exact ⟨_, by simp [hL]; rfl, BodyTrace.vacuumFail _ hlt⟩
          · exact ⟨_, by simp [hL]; rfl, BodyTrace.success hlt⟩

/-- Every run of `InitialSync` has one of the eight shapes of `ExecTrace`. -/
theorem InitialSync_trace (env : Env σ) (tables : List Table) (s : σ) :
    ExecTrace tables (runInitialSync env tables s).2 (runInitialSync env tables s).1 := by
  unfold runInitialSync InitialSync
  dsimp only
  rcases h1 : env.oldConnBeginTx s with ⟨_ | e, st⟩
  · unfold InitialSync.withSrcTx
    dsimp only [Run.log]
    rcases h2 : env.newConnBeginTx st with ⟨_ | e, st2⟩
    · obtain ⟨B, hB, hbt⟩ := withBothTx_trace env tables
        ⟨st2, [] ++ [.srcBegin none] ++ [.dstBegin none]⟩
      dsimp only
      rw [hB]
      simpa using ExecTrace.body hbt
    · exact ExecTrace.beginDstFail _
  · exact ExecTrace.beginSrcFail _

/-! ## Facts about the effects of the table loop -/

theorem LoopTrace.isSync {tables L res} (h : LoopTrace tables L res) :
    ∀ ev ∈ L, ev.isSync = true := by
  induction h with
  | done => simp
  | skip _ _ ih => exact ih
  | ok _ hB _ ih =>
    intro ev hev
    simp only [List.mem_cons, List.mem_append] at hev
    rcases hev with (rfl | hev) | rfl | hev
    · rfl
    · simp [Event.isSync, hB ev hev]
    · rfl
    · exact ih ev hev
  | fail _ hB =>
    intro ev hev
    simp only [List.mem_cons, List.mem_append, List.not_mem_nil, or_false] at hev
    rcases hev with (rfl | hev) | rfl
    · rfl
    · simp [Event.isSync, hB ev hev]
    · rfl

theorem LoopTrace.not_mem {tables L res} (h : LoopTrace tables L res) {ev : Event}
    (hev : ev.isSync = false) : ev ∉ L := by
  intro hmem
  rw [h.isSync ev hmem] at hev
  cases hev

theorem LoopTrace.filter_nil {tables L res} (h : LoopTrace tables L res) (p : Event → Bool)
    (hp : ∀ ev, ev.isSync = true → p ev = false) : L.filter p = [] := by
  rw [List.filter_eq_nil_iff]
  intro ev hev
  simp [hp ev (h.isSync ev hev)]

theorem filter_inner_nil {B : List Event} (hB : ∀ ev ∈ B, ev.isInner = true) :
    B.filter Event.isCallOrReturn = [] := by
  rw [List.filter_eq_nil_iff]
  intro ev hev
  have := hB ev hev
  cases ev <;> simp_all [Event.isInner, Event.isCallOrReturn]

theorem LoopTrace.ok_calls {tables L} (h : LoopTrace tables L none) :
    L.filter Event.isCallOrReturn = syncedOk (notSkipped tables) := by
  generalize hres : (none : Option GoError) = res at h
  induction h with
  | done => rfl
  | skip hs _ ih => simpa [notSkipped, hs] using ih hres
  | ok hs hB _ ih =>
    have := ih hres
    simp only [notSkipped] at this
    simp [notSkipped, hs, syncedOk, List.filter_cons, Event.isCallOrReturn,
      filter_inner_nil hB, this]
  | fail _ _ => cases hres

theorem LoopTrace.fail_calls {tables L err} (h : LoopTrace tables L (some err)) :
    ∃ pre t post e, tables = pre ++ t :: post ∧ t.SkipSync = false ∧
      err = Errorf ("sync table " ++ t.Name ++ ": ") e ∧
      L.filter Event.isCallOrReturn
        = syncedOk (notSkipped pre) ++ [.syncCall t, .syncReturn t (some e)] := by
  generalize hres : some err = res at h
  induction h with
  | done => cases hres
  | skip hs _ ih =>
    obtain ⟨pre, t, post, e, h1, h2, h3, h4⟩ := ih hres
    rename_i t0 _ _ _ _
    exact ⟨t0 :: pre, t, post, e, by simp [h1], h2, h3, by simpa [notSkipped, hs] using h4⟩
  | ok hs hB _ ih =>
    obtain ⟨pre, t, post, e, h1, h2, h3, h4⟩ := ih hres
    rename_i t0 _ _ _ _ _
    refine ⟨t0 :: pre, t, post, e, by simp [h1], h2, h3, ?_⟩
    simp only [notSkipped] at h4
    simp [notSkipped, hs, syncedOk, List.filter_cons, Event.isCallOrReturn,
      filter_inner_nil hB, h4]
  | fail hs hB =>
    rename_i t0 ts B e
    refine ⟨[], t0, ts, e, rfl, hs, ?_, ?_⟩
    · exact Option.some.inj hres
    · simp [notSkipped, syncedOk, List.filter_cons, Event.isCallOrReturn, filter_inner_nil hB]

theorem mem_syncedOk {ev : Event} {ts : List Table} (h : ev ∈ syncedOk ts) :
    ∃ t ∈ ts, ev = .syncCall t ∨ ev = .syncReturn t none := by
  induction ts with
  | nil => simp [syncedOk] at h
  | cons t ts ih =>
    simp only [syncedOk, List.mem_cons] at h
    rcases h with h | h | h
    · exact ⟨t, by simp, Or.inl h⟩
    · exact ⟨t, by simp, Or.inr h⟩
    · obtain ⟨t2, ht2, h2⟩ := ih h
      exact ⟨t2, by simp [ht2], h2⟩

/-! ## Splitting a list at an element -/

/-- If a list splits at an element satisfying `p` and none of the first elements `A`
satisfies `p`, the split point lies beyond `A`. -/
theorem split_after {α : Type} (p : α → Bool) {A R P Q : List α} {y : α}
    (hA : ∀ a ∈ A, p a = false) (hy : p y = true) (h : A ++ R = P ++ y :: Q) :
    ∃ M, P = A ++ M ∧ R = M ++ y :: Q := by
  induction A generalizing P with
  | nil => exact ⟨P, rfl, h⟩
  | cons a A ih =>
    cases P with
    | nil =>
      simp only [List.cons_append, List.nil_append, List.cons.injEq] at h
      have := hA a (by simp)
      rw [h.1, hy] at this
      cases this
    | cons b P =>
      simp only [List.cons_append, List.cons.injEq] at h
      obtain ⟨M, h1, h2⟩ := ih (fun x hx => hA x (by simp [hx])) h.2
      exact ⟨M, by simp [h.1, h1], h2⟩

theorem forall_false_of_filter_nil {α : Type} {p : α → Bool} {l : List α}
    (h : l.filter p = []) : ∀ a ∈ l, p a = false := by
  intro a ha
  have := List.filter_eq_nil_iff.1 h a ha
  simpa using this

theorem mem_pre_of_split {α : Type} (p : α → Bool) (A R P Q : List α) (x y : α)
    (h : A ++ R = P ++ y :: Q)
    (hA : A.filter p = []) (hy : p y = true) (hx : x ∈ A) : x ∈ P := by
  obtain ⟨M, h1, -⟩ := split_after p (forall_false_of_filter_nil hA) hy h
  rw [h1]
  exact List.mem_append_left _ hx

theorem not_split_of_forall {α : Type} (p : α → Bool) {T P Q : List α} {y : α}
    (h : T = P ++ y :: Q) (hT : T.filter p = []) (hy : p y = true) : False := by
  have := forall_false_of_filter_nil hT y (by rw [h]; simp)
  rw [hy] at this
  cases this

theorem sync_not_dstCommit (ev : Event) (h : ev.isSync = true) : ev.isDstCommit = false := by
  cases ev <;> simp_all [Event.isSync, Event.isInner, Event.isCallOrReturn, Event.isDstCommit]

/-- No effect of the table loop is a begin, a statement on a connection or transaction, a
progress report of `InitialSync`, a commit or a rollback. -/
theorem LoopTrace.control_not_mem {tables L res} (h : LoopTrace tables L res) :
    (∀ x, Event.srcBegin x ∉ L) ∧ (∀ x, Event.dstBegin x ∉ L) ∧
    (∀ q x, Event.dstTxExec q x ∉ L) ∧ (∀ m, Event.progress m ∉ L) ∧
    (∀ x, Event.srcCommit x ∉ L) ∧ (∀ x, Event.dstCommit x ∉ L) ∧
    (∀ q x, Event.newConnExec q x ∉ L) ∧ Event.dstRollback ∉ L ∧ Event.srcRollback ∉ L :=
  ⟨fun _ => h.not_mem rfl, fun _ => h.not_mem rfl, fun _ _ => h.not_mem rfl,
    fun _ => h.not_mem rfl, fun _ => h.not_mem rfl, fun _ => h.not_mem rfl,
    fun _ _ => h.not_mem rfl, h.not_mem rfl, h.not_mem rfl⟩

/-- C1. In every run of `InitialSync`, whatever the outcomes of its effects: `dstTx.Commit` is
called at most once; wherever it is called, `srcTx.Commit` has been called before and has
returned nil; and when `srcTx.Commit` fails with `e`, `dstTx.Commit` is never called and the
error returned is `e` wrapped with the text `commit src tx: ` in front. -/
theorem InitialSync_dstCommit_guarded (env : Env σ) (tables : List Table) (s : σ) :
    ((runInitialSync env tables s).2.filter Event.isDstCommit).length ≤ 1 ∧
    (∀ pre post e, (runInitialSync env tables s).2 = pre ++ Event.dstCommit e :: post →
        Event.srcCommit none ∈ pre) ∧
    (∀ e, Event.srcCommit (some e) ∈ (runInitialSync env tables s).2 →
        (∀ e2, Event.dstCommit e2 ∉ (runInitialSync env tables s).2) ∧
        (runInitialSync env tables s).1 = some (Errorf "commit src tx: " e) ∧
        (Errorf "commit src tx: " e).Error = "commit src tx: " ++ e.Error ∧
        (Errorf "commit src tx: " e).Unwrap = some e) := by
  have h := InitialSync_trace env tables s
  generalize (runInitialSync env tables s).2 = trace at h
  generalize (runInitialSync env tables s).1 = res at h
  rcases h with e | e | ⟨hb⟩
  · refine ⟨by simp [Event.isDstCommit], ?_, by simp⟩
    intro pre post e2 h
    exact absurd (not_split_of_forall Event.isDstCommit h
      (by simp [Event.isDstCommit, List.filter_cons]) rfl) id
  · refine ⟨by simp [Event.isDstCommit], ?_, by simp⟩
    intro pre post e2 h
    exact absurd (not_split_of_forall Event.isDstCommit h
      (by simp [Event.isDstCommit, List.filter_cons]) rfl) id
  · cases hb with
    | deferFail e =>
      refine ⟨by simp [Event.isDstCommit], ?_, by simp⟩
      intro pre post e2 h
      exact absurd (not_split_of_forall Event.isDstCommit h
        (by simp [Event.isDstCommit, List.filter_cons]) rfl) id
    | syncFail hlt =>
      obtain ⟨n1, n2, n3, n4, n5, n6, n7, n8, n9⟩ := hlt.control_not_mem
      have hf := hlt.filter_nil _ sync_not_dstCommit
      refine ⟨by simp [Event.isDstCommit, List.filter_cons, hf], ?_, by simp [n5]⟩
      intro pre post e2 h
      exact absurd (not_split_of_forall Event.isDstCommit h
        (by simp [Event.isDstCommit, List.filter_cons, hf]) rfl) id
    | srcCommitFail e hlt =>
      obtain ⟨n1, n2, n3, n4, n5, n6, n7, n8, n9⟩ := hlt.control_not_mem
      have hf := hlt.filter_nil _ sync_not_dstCommit
      refine ⟨by simp [Event.isDstCommit, List.filter_cons, hf], ?_, ?_⟩
      · intro pre post e2 h
        exact absurd (not_split_of_forall Event.isDstCommit h
          (by simp [Event.isDstCommit, List.filter_cons, hf]) rfl) id
      · intro e1 he
        simp [n5] at he
        subst he
        exact ⟨by simp [n6], rfl, rfl, rfl⟩
    | dstCommitFail e hlt =>
      rename_i L
      obtain ⟨n1, n2, n3, n4, n5, n6, n7, n8, n9⟩ := hlt.control_not_mem
      have hf := hlt.filter_nil _ sync_not_dstCommit
      refine ⟨by simp [Event.isDstCommit, List.filter_cons, hf], ?_, by simp [n5]⟩
      intro pre post e2 h
      exact mem_pre_of_split Event.isDstCommit
        (.srcBegin none :: .dstBegin none :: .dstTxExec deferSql none :: L ++
          [.progress "commit initial sync", .srcCommit none])
        [.dstCommit (some e), .dstRollback, .srcRollback] pre post _ (.dstCommit e2)
        (by rw [← h]; simp) (by simp [Event.isDstCommit, List.filter_cons, hf]) rfl (by simp)
    | vacuumFail e hlt =>
      rename_i L
      obtain ⟨n1, n2, n3, n4, n5, n6, n7, n8, n9⟩ := hlt.control_not_mem
      have hf := hlt.filter_nil _ sync_not_dstCommit
      refine ⟨by simp [Event.isDstCommit, List.filter_cons, hf], ?_, by simp [n5]⟩
      intro pre post e2 h
      exact mem_pre_of_split Event.isDstCommit
        (.srcBegin none :: .dstBegin none :: .dstTxExec deferSql none :: L ++
          [.progress "commit initial sync", .srcCommit none])
        [.dstCommit none, .progress "vacuum analyze",
          .newConnExec "vacuum analyze" (some e), .dstRollback, .srcRollback]
        pre post _ (.dstCommit e2)
        (by rw [← h]; simp) (by simp [Event.isDstCommit, List.filter_cons, hf]) rfl (by simp)
    | success hlt =>
      rename_i L
      obtain ⟨n1, n2, n3, n4, n5, n6, n7, n8, n9⟩ := hlt.control_not_mem
      have hf := hlt.filter_nil _ sync_not_dstCommit
      refine ⟨by simp [Event.isDstCommit, List.filter_cons, hf], ?_, by simp [n5]⟩
      intro pre post e2 h
      exact mem_pre_of_split Event.isDstCommit
        (.srcBegin none :: .dstBegin none :: .dstTxExec deferSql none :: L ++
          [.progress "commit initial sync", .srcCommit none])
        [.dstCommit none, .progress "vacuum analyze",
          .newConnExec "vacuum analyze" none, .dstRollback, .srcRollback]
        pre post _ (.dstCommit e2)
        (by rw [← h]; simp) (by simp [Event.isDstCommit, List.filter_cons, hf]) rfl (by simp)

/-- C1, on two runs: the one in which every operation succeeds, split at its call of
`dstTx.Commit`, and the one in which the commit of the source transaction fails after both
tables were synced, where the destination transaction is not committed and the error is the
wrapped one. -/
theorem InitialSync_dstCommit_guarded_witness :
    Event.srcCommit none ∈ (runInitialSync allOk.env sampleTables ()).2.take 13 ∧
    (∀ e2, Event.dstCommit e2 ∉ (runInitialSync srcCommitFails.env sampleTables ()).2) ∧
    (runInitialSync srcCommitFails.env sampleTables ()).1
      = some (Errorf "commit src tx: " (.base "could not serialize access")) ∧
    (Errorf "commit src tx: " (.base "could not serialize access")).Error
      = "commit src tx: " ++ (GoError.base "could not serialize access").Error ∧
    (Errorf "commit src tx: " (.base "could not serialize access")).Unwrap
      = some (.base "could not serialize access") :=
  ⟨(InitialSync_dstCommit_guarded allOk.env sampleTables ()).2.1
      ((runInitialSync allOk.env sampleTables ()).2.take 13)
      ((runInitialSync allOk.env sampleTables ()).2.drop 14) none (by decide),
    (InitialSync_dstCommit_guarded srcCommitFails.env sampleTables ()).2.2
      (.base "could not serialize access") (by decide)⟩

theorem syncReturn_some_not_mem_syncedOk (ts : List Table) (t : Table) (e : GoError) :
    Event.syncReturn t (some e) ∉ syncedOk ts := by
  intro h
  obtain ⟨t2, -, h2 | h2⟩ := mem_syncedOk h
  · cases h2
  · cases h2

theorem mem_filter_callOrReturn {L : List Event} {ev : Event} (h : ev ∈ L)
    (hev : ev.isCallOrReturn = true) : ev ∈ L.filter Event.isCallOrReturn :=
  List.mem_filter.2 ⟨h, hev⟩

/-- A failing return among the effects of the table loop is the last one: the loop was left
at that table with its error wrapped. -/
theorem LoopTrace.of_mem_fail {tables L res} (h : LoopTrace tables L res) {t : Table}
    {e : GoError} (hmem : Event.syncReturn t (some e) ∈ L) :
    res = some (Errorf ("sync table " ++ t.Name ++ ": ") e) ∧
    ∃ pre post, tables = pre ++ t :: post ∧ t.SkipSync = false ∧
      L.filter Event.isCallOrReturn
        = syncedOk (notSkipped pre) ++ [.syncCall t, .syncReturn t (some e)] := by
  have hm := mem_filter_callOrReturn hmem rfl
  cases res with
  | none =>
    rw [h.ok_calls] at hm
    exact absurd hm (syncReturn_some_not_mem_syncedOk _ _ _)
  | some err =>
    obtain ⟨pre, t2, post, e2, h1, h2, h3, h4⟩ := h.fail_calls
    rw [h4] at hm
    simp only [List.mem_append, List.mem_cons, List.mem_singleton, List.not_mem_nil,
      or_false] at hm
    rcases hm with hm | hm | hm
    · exact absurd hm (syncReturn_some_not_mem_syncedOk _ _ _)
    · cases hm
    · injection hm with ht he
      injection he with he
      subst ht; subst he
      exact ⟨by rw [h3], pre, post, h1, h2, h4⟩

/-- C2. If in a run of `InitialSync` the sync of a table `t` returns an error `e`, then `t` is
a table of the list that is not flagged skip-sync, the tables synced are the unskipped tables
before `t`, each returning nil, and then `t`: no later table is synced; neither commit is
called and nothing is executed on the new connection (no `vacuum analyze`); and the error
returned is `e` wrapped with the text `sync table <name of t>: ` in front. -/
theorem InitialSync_fail_fast (env : Env σ) (tables : List Table) (s : σ) (t : Table)
    (e : GoError) (hfail : Event.syncReturn t (some e) ∈ (runInitialSync env tables s).2) :
    ∃ pre post, tables = pre ++ t :: post ∧ t.SkipSync = false ∧
      (runInitialSync env tables s).2.filter Event.isCallOrReturn
        = syncedOk (notSkipped pre) ++ [.syncCall t, .syncReturn t (some e)] ∧
      (∀ x, Event.srcCommit x ∉ (runInitialSync env tables s).2) ∧
      (∀ x, Event.dstCommit x ∉ (runInitialSync env tables s).2) ∧
      (∀ q x, Event.newConnExec q x ∉ (runInitialSync env tables s).2) ∧
      (runInitialSync env tables s).1 = some (Errorf ("sync table " ++ t.Name ++ ": ") e) ∧
      (Errorf ("sync table " ++ t.Name ++ ": ") e).Error
        = "sync table " ++ t.Name ++ ": " ++ e.Error ∧
      (Errorf ("sync table " ++ t.Name ++ ": ") e).Unwrap = some e := by
  have h := InitialSync_trace env tables s
  generalize (runInitialSync env tables s).2 = trace at h hfail
  generalize (runInitialSync env tables s).1 = res at h
  rcases h with e1 | e1 | ⟨hb⟩
  · simp at hfail
  · simp at hfail
  · cases hb with
    | deferFail e1 => simp at hfail
    | syncFail hlt =>
      obtain ⟨n1, n2, n3, n4, n5, n6, n7, n8, n9⟩ := hlt.control_not_mem
      simp at hfail
      obtain ⟨hres, pre, post, h1, h2, h3⟩ := hlt.of_mem_fail hfail
      refine ⟨pre, post, h1, h2, ?_, by simp [n5], by simp [n6], by simp [n7], hres, rfl, rfl⟩
      simp [List.filter_cons, Event.isCallOrReturn, h3]
    | srcCommitFail e1 hlt =>
      simp at hfail
      exact absurd (hlt.of_mem_fail hfail).1 (by simp)
    | dstCommitFail e1 hlt =>
      simp at hfail
      exact absurd (hlt.of_mem_fail hfail).1 (by simp)
    | vacuumFail e1 hlt =>
      simp at hfail
      exact absurd (hlt.of_mem_fail hfail).1 (by simp)
    | success hlt =>
      simp at hfail
      exact absurd (hlt.of_mem_fail hfail).1 (by simp)

/-- C2, on a run in which the copy into the destination fails for the third table. -/
theorem InitialSync_fail_fast_witness :
    ∃ pre post, sampleTables = pre ++ ⟨"alerts", "\"alerts\"", false⟩ :: post ∧
      (⟨"alerts", "\"alerts\"", false⟩ : Table).SkipSync = false ∧
      (runInitialSync alertsCopyFails.env sampleTables ()).2.filter Event.isCallOrReturn
        = syncedOk (notSkipped pre) ++ [.syncCall ⟨"alerts", "\"alerts\"", false⟩,
            .syncReturn ⟨"alerts", "\"alerts\"", false⟩
              (some (Errorf "copy to dst: " (.base "unique violation")))] ∧
      (∀ x, Event.srcCommit x ∉ (runInitialSync alertsCopyFails.env sampleTables ()).2) ∧
      (∀ x, Event.dstCommit x ∉ (runInitialSync alertsCopyFails.env sampleTables ()).2) ∧
      (∀ q x, Event.newConnExec q x ∉ (runInitialSync alertsCopyFails.env sampleTables ()).2) ∧
      (runInitialSync alertsCopyFails.env sampleTables ()).1
        = some (Errorf ("sync table " ++ "alerts" ++ ": ")
            (Errorf "copy to dst: " (.base "unique violation"))) ∧
      (Errorf ("sync table " ++ "alerts" ++ ": ")
          (Errorf "copy to dst: " (.base "unique violation"))).Error
        = "sync table " ++ "alerts" ++ ": "
            ++ (Errorf "copy to dst: " (.base "unique violation")).Error ∧
      (Errorf ("sync table " ++ "alerts" ++ ": ")
          (Errorf "copy to dst: " (.base "unique violation"))).Unwrap
        = some (Errorf "copy to dst: " (.base "unique violation")) :=
  InitialSync_fail_fast alertsCopyFails.env sampleTables () ⟨"alerts", "\"alerts\"", false⟩
    (Errorf "copy to dst: " (.base "unique violation")) (by decide)

theorem syncCall_mem_syncedOk {ts : List Table} {t : Table}
    (h : Event.syncCall t ∈ syncedOk ts) : t ∈ ts := by
  obtain ⟨t2, ht2, h2 | h2⟩ := mem_syncedOk h
  · cases h2; exact ht2
  · cases h2

theorem mem_notSkipped {ts : List Table} {t : Table} (h : t ∈ notSkipped ts) :
    t ∈ ts ∧ t.SkipSync = false := by
  simpa [notSkipped] using h

/-- Every table the loop enters is an unskipped table of the list. -/
theorem LoopTrace.of_mem_call {tables L res} (h : LoopTrace tables L res) {t : Table}
    (hmem : Event.syncCall t ∈ L) : t ∈ tables ∧ t.SkipSync = false := by
  have hm := mem_filter_callOrReturn hmem rfl
  cases res with
  | none =>
    rw [h.ok_calls] at hm
    exact mem_notSkipped (syncCall_mem_syncedOk hm)
  | some err =>
    obtain ⟨pre, t2, post, e2, h1, h2, h3, h4⟩ := h.fail_calls
    rw [h4] at hm
    simp only [List.mem_append, List.mem_cons, List.mem_singleton, List.not_mem_nil,
      or_false] at hm
    rcases hm with hm | hm | hm
    · have := mem_notSkipped (syncCall_mem_syncedOk hm)
      exact ⟨by rw [h1]; simp [this.1], this.2⟩
    · injection hm with ht
      subst ht
      exact ⟨by rw [h1]; simp, h2⟩
    · cases hm

/-- C3. When both transactions are begun, the constraints are deferred and no table sync
returns an error, the entries and returns of `SyncTableInit` in the trace are exactly those of
the unskipped tables of the list, in the order of the list: each table is entered once,
returns nil, and only then is the next one entered. In every run, each table `SyncTableInit`
is entered for is a table of the list that is not flagged skip-sync. -/
theorem InitialSync_sync_sequence (env : Env σ) (tables : List Table) (s : σ) :
    (Event.srcBegin none ∈ (runInitialSync env tables s).2 →
      Event.dstBegin none ∈ (runInitialSync env tables s).2 →
      Event.dstTxExec "SET CONSTRAINTS ALL DEFERRED" none ∈ (runInitialSync env tables s).2 →
      (∀ t e, Event.syncReturn t (some e) ∉ (runInitialSync env tables s).2) →
      (runInitialSync env tables s).2.filter Event.isCallOrReturn
        = syncedOk (tables.filter (fun t => !t.SkipSync))) ∧
    (∀ t, Event.syncCall t ∈ (runInitialSync env tables s).2 →
      t ∈ tables ∧ t.SkipSync = false) := by
  have h := InitialSync_trace env tables s
  generalize (runInitialSync env tables s).2 = trace at h
  generalize (runInitialSync env tables s).1 = res at h
  rcases h with e1 | e1 | ⟨hb⟩
  · exact ⟨by simp, by simp⟩
  · exact ⟨by simp, by simp⟩
  · cases hb with
    | deferFail e1 => exact ⟨by simp, by simp⟩
    | syncFail hlt =>
      refine ⟨?_, ?_⟩
      · intro _ _ _ h4
        obtain ⟨pre, t, post, e, -, -, -, hc⟩ := hlt.fail_calls
        have hm : Event.syncReturn t (some e) ∈
            syncedOk (notSkipped pre) ++ [Event.syncCall t, Event.syncReturn t (some e)] := by
          simp
        rw [← hc] at hm
        exact absurd (by simp [(List.mem_filter.1 hm).1]) (h4 t e)
      · intro t ht
        simp at ht
        exact hlt.of_mem_call ht
    | srcCommitFail e1 hlt =>
      refine ⟨?_, ?_⟩
      · intro _ _ _ _
        simp [List.filter_cons, Event.isCallOrReturn, hlt.ok_calls, notSkipped]
      · intro t ht
        simp at ht
        exact hlt.of_mem_call ht
    | dstCommitFail e1 hlt =>
      refine ⟨?_, ?_⟩
      · intro _ _ _ _
        simp [List.filter_cons, Event.isCallOrReturn, hlt.ok_calls, notSkipped]
      · intro t ht
        simp at ht
        exact hlt.of_mem_call ht
    | vacuumFail e1 hlt =>
      refine ⟨?_, ?_⟩
      · intro _ _ _ _
        simp [List.filter_cons, Event.isCallOrReturn, hlt.ok_calls, notSkipped]
      · intro t ht
        simp at ht
        exact hlt.of_mem_call ht
    | success hlt =>
      refine ⟨?_, ?_⟩
      · intro _ _ _ _
        simp [List.filter_cons, Event.isCallOrReturn, hlt.ok_calls, notSkipped]
      · intro t ht
        simp at ht
        exact hlt.of_mem_call ht

/-- C3, on the run in which every operation succeeds: `users` and then `alerts` are synced,
`switchover_state` is not. -/
theorem InitialSync_sync_sequence_witness :
    (runInitialSync allOk.env sampleTables ()).2.filter Event.isCallOrReturn
        = syncedOk (sampleTables.filter (fun t => !t.SkipSync)) ∧
    ((⟨"users", "\"users\"", false⟩ : Table) ∈ sampleTables ∧
      (⟨"users", "\"users\"", false⟩ : Table).SkipSync = false) :=
  ⟨(InitialSync_sync_sequence allOk.env sampleTables ()).1 (by decide) (by decide) (by decide)
      (by
        intro t e hmem
        have hd : ∀ ev ∈ (runInitialSync allOk.env sampleTables ()).2, ev.stepError = none := by
          decide
        exact absurd (hd _ hmem) (by simp [Event.stepError, Event.step])),
    (InitialSync_sync_sequence allOk.env sampleTables ()).2 ⟨"users", "\"users\"", false⟩
      (by decide)⟩

/-- C4. The error `SyncTableInit` returns is decided by the error of the row count query and
the two errors of the copy: a failing query gives its error wrapped with `count rows: ` and
the copy is not started; otherwise a failing copy into the destination gives its error
wrapped with `copy to dst: `, whatever the copy from the source did; otherwise a failing copy
from the source gives its error wrapped with `copy from src: `; otherwise nil. Hence nil is
returned exactly when all three are nil. -/
theorem SyncTableInit_result (env : Env σ) (t : Table) (r : Run σ) (rowCount : Int)
    (countErr srcErr dstErr : Option GoError) (s1 s2 : σ)
    (hcount : env.srcTxQueryRowScan ("select count(*) from " ++ t.QuotedName) r.st
      = ((rowCount, countErr), s1))
    (hcopy : env.copyGoroutines t ("copy " ++ t.QuotedName ++ " to stdout")
      ("copy " ++ t.QuotedName ++ " from stdin") rowCount s1 = ((srcErr, dstErr), s2)) :
    (∀ e, countErr = some e →
      (SyncTableInit env t r).1 = some (Errorf "count rows: " e) ∧
      (SyncTableInit env t r).2.trace = r.trace ++
        [.syncCall t, .countRows ("select count(*) from " ++ t.QuotedName) rowCount (some e),
          .syncReturn t (some (Errorf "count rows: " e))]) ∧
    (countErr = none → ∀ e, dstErr = some e →
      (SyncTableInit env t r).1 = some (Errorf "copy to dst: " e)) ∧
    (countErr = none → dstErr = none → ∀ e, srcErr = some e →
      (SyncTableInit env t r).1 = some (Errorf "copy from src: " e)) ∧
    (countErr = none → dstErr = none → srcErr = none → (SyncTableInit env t r).1 = none) ∧
    ((SyncTableInit env t r).1 = none ↔ countErr = none ∧ srcErr = none ∧ dstErr = none) := by
  unfold SyncTableInit SyncTableInit.body
  simp only [Run.log, hcount]
  cases countErr with
  | some e0 => simp
  | none =>
    simp only [hcopy]
    cases dstErr with
    | some e1 => simp
    | none =>
      cases srcErr with
      | some e2 => simp
      | none => simp

/-- C4, on the table `alerts` in the world where its copy into the destination fails. -/
theorem SyncTableInit_result_witness :
    (SyncTableInit alertsCopyFails.env ⟨"alerts", "\"alerts\"", false⟩ ⟨(), []⟩).1
      = some (Errorf "copy to dst: " (.base "unique violation")) :=
  (SyncTableInit_result alertsCopyFails.env ⟨"alerts", "\"alerts\"", false⟩ ⟨(), []⟩ 0 none
    none (some (.base "unique violation")) () () (by decide) (by decide)).2.1 rfl _ rfl

/-- C5 as stated fails. When the source transaction cannot be begun, `InitialSync` returns an
error and `Rollback` is called on neither transaction; when the destination transaction
cannot be begun, it returns an error and `Rollback` is called on the source transaction
only. -/
theorem InitialSync_begin_failure_no_rollback :
    ((runInitialSync srcBeginFails.env sampleTables ()).1
        = some (Errorf "begin src tx: " (.base "connection refused")) ∧
      Event.srcRollback ∉ (runInitialSync srcBeginFails.env sampleTables ()).2 ∧
      Event.dstRollback ∉ (runInitialSync srcBeginFails.env sampleTables ()).2) ∧
    ((runInitialSync dstBeginFails.env sampleTables ()).1
        = some (Errorf "begin dst tx: " (.base "connection refused")) ∧
      Event.srcRollback ∈ (runInitialSync dstBeginFails.env sampleTables ()).2 ∧
      Event.dstRollback ∉ (runInitialSync dstBeginFails.env sampleTables ()).2) := by
  decide

/-- C5, amended. On every exit path of `InitialSync`, a transaction that was begun has its
`Rollback` called before the call returns: if the source transaction was begun, the last
effect is `srcTx.Rollback`; if the destination transaction was begun, the last two effects
are `dstTx.Rollback` and `srcTx.Rollback`. So whenever `InitialSync` returns an error after
both transactions were begun, `Rollback` has been called on both. `Rollback` is called on no
transaction that was not begun, and when nil is returned both transactions were committed
before. -/
theorem InitialSync_rollback_of_begun (env : Env σ) (tables : List Table) (s : σ) :
    (Event.srcBegin none ∈ (runInitialSync env tables s).2 →
      ∃ pre, (runInitialSync env tables s).2 = pre ++ [Event.srcRollback]) ∧
    (Event.dstBegin none ∈ (runInitialSync env tables s).2 →
      ∃ pre, (runInitialSync env tables s).2 = pre ++ [Event.dstRollback, Event.srcRollback]) ∧
    (∀ err, (runInitialSync env tables s).1 = some err →
      Event.srcBegin none ∈ (runInitialSync env tables s).2 →
      Event.dstBegin none ∈ (runInitialSync env tables s).2 →
      Event.dstRollback ∈ (runInitialSync env tables s).2 ∧
      Event.srcRollback ∈ (runInitialSync env tables s).2) ∧
    (Event.srcRollback ∈ (runInitialSync env tables s).2 →
      Event.srcBegin none ∈ (runInitialSync env tables s).2) ∧
    (Event.dstRollback ∈ (runInitialSync env tables s).2 →
      Event.dstBegin none ∈ (runInitialSync env tables s).2) ∧
    ((runInitialSync env tables s).1 = none →
      Event.srcCommit none ∈ (runInitialSync env tables s).2 ∧
      Event.dstCommit none ∈ (runInitialSync env tables s).2) := by
  have h := InitialSync_trace env tables s
  generalize (runInitialSync env tables s).2 = trace at h
  generalize (runInitialSync env tables s).1 = res at h
  rcases h with e | e | ⟨hb⟩
  · simp
  · exact ⟨fun _ => ⟨[.srcBegin none, .dstBegin (some e)], rfl⟩, by simp, by simp, by simp,
      by simp, by simp⟩
  · rename_i B
    refine ⟨fun _ => ⟨.srcBegin none :: .dstBegin none :: B ++ [.dstRollback], by simp⟩,
      fun _ => ⟨_, rfl⟩, by simp, by simp, by simp, ?_⟩
    intro hres
    cases hb with
    | deferFail e => cases hres
    | syncFail hlt => cases hres
    | srcCommitFail e hlt => cases hres
    | dstCommitFail e hlt => cases hres
    | vacuumFail e hlt => cases hres
    | success hlt => simp

/-- C5 amended, on a run in which the commit of the destination transaction fails: both
transactions were begun, an error is returned, and both rollbacks are called. -/
theorem InitialSync_rollback_of_begun_witness :
    Event.dstRollback ∈ (runInitialSync dstCommitFails.env sampleTables ()).2 ∧
    Event.srcRollback ∈ (runInitialSync dstCommitFails.env sampleTables ()).2 :=
  (InitialSync_rollback_of_begun dstCommitFails.env sampleTables ()).2.2.1
    (Errorf "commit dst tx: " (.base "foreign key violation")) (by decide) (by decide)
    (by decide)

theorem LoopTrace.stepError_none {tables L} (h : LoopTrace tables L none) :
    ∀ ev ∈ L, ev.stepError = none := by
  intro ev hev
  by_cases hc : ev.isCallOrReturn = true
  · have hm := mem_filter_callOrReturn hev hc
    rw [h.ok_calls] at hm
    obtain ⟨t, -, rfl | rfl⟩ := mem_syncedOk hm <;> rfl
  · have hs := h.isSync ev hev
    cases ev <;> simp_all [Event.isSync, Event.isInner, Event.isCallOrReturn, Event.stepError,
      Event.step]

/-- C6. `InitialSync` returns nil exactly when no step of the run failed. When it returns nil,
`vacuum analyze` was executed on the new connection exactly once, it returned nil, and both
commits had returned nil before it. When either commit fails, nothing is executed on the new
connection. When `vacuum analyze` fails with `e`, the error returned is `e` wrapped with
`vacuum analyze: `, although both commits returned nil. -/
theorem InitialSync_nil_iff_vacuum (env : Env σ) (tables : List Table) (s : σ) :
    ((runInitialSync env tables s).1 = none ↔
      ∀ ev ∈ (runInitialSync env tables s).2, ev.stepError = none) ∧
    ((runInitialSync env tables s).1 = none →
      ∃ pre post, (runInitialSync env tables s).2
          = pre ++ Event.newConnExec "vacuum analyze" none :: post ∧
        Event.srcCommit none ∈ pre ∧ Event.dstCommit none ∈ pre ∧
        (∀ q x, Event.newConnExec q x ∉ pre) ∧ (∀ q x, Event.newConnExec q x ∉ post)) ∧
    (∀ e, Event.srcCommit (some e) ∈ (runInitialSync env tables s).2 ∨
        Event.dstCommit (some e) ∈ (runInitialSync env tables s).2 →
      ∀ q x, Event.newConnExec q x ∉ (runInitialSync env tables s).2) ∧
    (∀ e, Event.newConnExec "vacuum analyze" (some e) ∈ (runInitialSync env tables s).2 →
      (runInitialSync env tables s).1 = some (Errorf "vacuum analyze: " e) ∧
      Event.srcCommit none ∈ (runInitialSync env tables s).2 ∧
      Event.dstCommit none ∈ (runInitialSync env tables s).2) := by
  have h := InitialSync_trace env tables s
  generalize (runInitialSync env tables s).2 = trace at h
  generalize (runInitialSync env tables s).1 = res at h
  rcases h with e | e | ⟨hb⟩
  · simp [Event.stepError, Event.step]
  · simp [Event.stepError, Event.step]
  · cases hb with
    | deferFail e => simp [Event.stepError, Event.step]
    | syncFail hlt =>
      obtain ⟨n1, n2, n3, n4, n5, n6, n7, n8, n9⟩ := hlt.control_not_mem
      obtain ⟨pre, t, post, e, -, -, -, hc⟩ := hlt.fail_calls
      have hm : Event.syncReturn t (some e) ∈
          syncedOk (notSkipped pre) ++ [Event.syncCall t, Event.syncReturn t (some e)] := by
        simp
      rw [← hc] at hm
      refine ⟨?_, by simp, by simp [n5, n6, n7], by simp [n7]⟩
      simp only [false_iff, reduceCtorEq]
      intro hall
      have := hall (Event.syncReturn t (some e)) (by simp [(List.mem_filter.1 hm).1])
      simp [Event.stepError, Event.step] at this
    | srcCommitFail e hlt =>
      obtain ⟨n1, n2, n3, n4, n5, n6, n7, n8, n9⟩ := hlt.control_not_mem
      refine ⟨?_, by simp, by simp [n5, n6, n7], by simp [n7]⟩
      simp only [false_iff, reduceCtorEq]
      intro hall
      have := hall (Event.srcCommit (some e)) (by simp)
      simp [Event.stepError, Event.step] at this
    | dstCommitFail e hlt =>
      obtain ⟨n1, n2, n3, n4, n5, n6, n7, n8, n9⟩ := hlt.control_not_mem
      refine ⟨?_, by simp, by simp [n5, n6, n7], by simp [n7]⟩
      simp only [false_iff, reduceCtorEq]
      intro hall
      have := hall (Event.dstCommit (some e)) (by simp)
      simp [Event.stepError, Event.step] at this
    | vacuumFail e hlt =>
      obtain ⟨n1, n2, n3, n4, n5, n6, n7, n8, n9⟩ := hlt.control_not_mem
      refine ⟨?_, by simp, by simp [n5, n6, n7], by simp [n7]⟩
      simp only [false_iff, reduceCtorEq]
      intro hall
      have := hall (Event.newConnExec "vacuum analyze" (some e)) (by simp)
      simp [Event.stepError, Event.step] at this
    | success hlt =>
      rename_i L
      obtain ⟨n1, n2, n3, n4, n5, n6, n7, n8, n9⟩ := hlt.control_not_mem
      have hs := hlt.stepError_none
      refine ⟨?_, ?_, by simp [n5, n6, n7], by simp [n7]⟩
      · simp only [true_iff]
        intro ev hev
        simp only [List.mem_cons, List.mem_append, List.not_mem_nil, or_false, or_assoc] at hev
        rcases hev with rfl | rfl | rfl | hev | rfl | rfl | rfl | rfl | rfl | rfl | rfl
        all_goals first
          | rfl
          | exact hs _ hev
      · intro _
        refine ⟨.srcBegin none :: .dstBegin none :: .dstTxExec deferSql none :: L ++
            [.progress "commit initial sync", .srcCommit none, .dstCommit none,
              .progress "vacuum analyze"],
          [.dstRollback, .srcRollback], by simp, by simp, by simp, by simp [n7], by simp⟩

/-- C6, on three runs: the one in which every operation succeeds, the one in which the commit
of the source transaction fails, and the one in which `vacuum analyze` fails. -/
theorem InitialSync_nil_iff_vacuum_witness :
    (∃ pre post, (runInitialSync allOk.env sampleTables ()).2
          = pre ++ Event.newConnExec "vacuum analyze" none :: post ∧
        Event.srcCommit none ∈ pre ∧ Event.dstCommit none ∈ pre ∧
        (∀ q x, Event.newConnExec q x ∉ pre) ∧ (∀ q x, Event.newConnExec q x ∉ post)) ∧
    (∀ q x, Event.newConnExec q x ∉ (runInitialSync srcCommitFails.env sampleTables ()).2) ∧
    ((runInitialSync vacuumFails.env sampleTables ()).1
        = some (Errorf "vacuum analyze: " (.base "out of disk")) ∧
      Event.srcCommit none ∈ (runInitialSync vacuumFails.env sampleTables ()).2 ∧
      Event.dstCommit none ∈ (runInitialSync vacuumFails.env sampleTables ()).2) :=
  ⟨(InitialSync_nil_iff_vacuum allOk.env sampleTables ()).2.1 (by decide),
    (InitialSync_nil_iff_vacuum srcCommitFails.env sampleTables ()).2.2.1
      (.base "could not serialize access") (Or.inl (by decide)),
    (InitialSync_nil_iff_vacuum vacuumFails.env sampleTables ()).2.2.2
      (.base "out of disk") (by decide)⟩

/-- The first eight characters of a message that starts with the text of a step. -/
theorem Phase.text_take (p : Phase) (n x : String) :
    (p.text n ++ x).data.take 8 = match p with
      | .beginSrc => "begin sr".data
      | .beginDst => "begin ds".data
      | .deferConstraints => "defer co".data
      | .syncTable => "sync tab".data
      | .commitSrc => "commit s".data
      | .commitDst => "commit d".data
      | .vacuumAnalyze => "vacuum a".data := by
  cases p <;> simp [Phase.text, String.data_append]

theorem Phase.text_injective (p q : Phase) (n m x y : String)
    (h : p.text n ++ x = q.text m ++ y) : p = q := by
  have h1 := Phase.text_take p n x
  have h2 := Phase.text_take q m y
  rw [h] at h1
  rw [h1] at h2
  cases p <;> cases q <;> first | rfl | exact absurd h2 (by decide)

theorem step_of_sync {ev : Event} (hs : ev.isSync = true) {p : Phase} {n : String}
    {e : GoError} (h : ev.step = some (p, n, some e)) :
    ∃ t, ev = Event.syncReturn t (some e) ∧ p = .syncTable ∧ n = t.Name := by
  cases ev <;> simp_all [Event.isSync, Event.isInner, Event.isCallOrReturn, Event.step]

theorem stepError_of_step {ev : Event} {p : Phase} {n : String} {e : GoError}
    (h : ev.step = some (p, n, some e)) : ev.stepError = some e := by
  simp [Event.stepError, h]

/-- C9. In every run of `InitialSync`: if a step fails with an error `e`, the error returned
is `e` wrapped with the text of that step in front (`begin src tx: `, `begin dst tx: `,
`defer constraints: `, `sync table <name>: `, `commit src tx: `, `commit dst tx: `,
`vacuum analyze: `), so no error of a step is swallowed; every error returned is of that
form for a step of the run that failed; and a message that starts with the text of a step
does not start with the text of another step, whatever the table names and whatever follows,
so the step is a function of the message. -/
theorem InitialSync_error_phase (env : Env σ) (tables : List Table) (s : σ) :
    (∀ ev ∈ (runInitialSync env tables s).2, ∀ p n e, ev.step = some (p, n, some e) →
      (runInitialSync env tables s).1 = some (Errorf (p.text n) e)) ∧
    (∀ err, (runInitialSync env tables s).1 = some err →
      ∃ ev ∈ (runInitialSync env tables s).2, ∃ p n e, ev.step = some (p, n, some e) ∧
        err = Errorf (p.text n) e ∧ err.Error = p.text n ++ e.Error ∧ err.Unwrap = some e) ∧
    (∀ (p q : Phase) (n m x y : String), p.text n ++ x = q.text m ++ y → p = q) := by
  refine ⟨?_, ?_, Phase.text_injective⟩
  · have h := InitialSync_trace env tables s
    generalize (runInitialSync env tables s).2 = trace at h
    generalize (runInitialSync env tables s).1 = res at h
    intro ev hev p n e hstep
    have key : ∀ {L r}, LoopTrace tables L r → ev ∈ L →
        r = some (Errorf (p.text n) e) := by
      intro L r hlt hmem
      obtain ⟨t, rfl, rfl, rfl⟩ := step_of_sync (hlt.isSync _ hmem) hstep
      exact (hlt.of_mem_fail hmem).1
    rcases h with e1 | e1 | ⟨hb⟩
    · simp only [List.mem_singleton] at hev
      subst hev
      simp only [Event.step, Option.some.injEq, Prod.mk.injEq] at hstep
      obtain ⟨rfl, rfl, rfl⟩ := hstep
      rfl
    · simp only [List.mem_cons, List.not_mem_nil, or_false] at hev
      rcases hev with rfl | rfl | rfl
      all_goals simp only [Event.step, Option.some.injEq, Prod.mk.injEq, reduceCtorEq,
        and_false] at hstep
      obtain ⟨rfl, rfl, rfl⟩ := hstep
      rfl
    · cases hb with
      | deferFail e1 =>
        simp only [List.mem_cons, List.mem_append, List.not_mem_nil, or_false,
          or_assoc, List.mem_singleton] at hev
        rcases hev with rfl | rfl | rfl | rfl | rfl
        all_goals simp only [Event.step, Option.some.injEq, Prod.mk.injEq, reduceCtorEq,
          and_false] at hstep
        obtain ⟨rfl, rfl, rfl⟩ := hstep
        rfl
      | syncFail hlt =>
        simp only [List.mem_cons, List.mem_append, List.not_mem_nil, or_false,
          or_assoc, List.mem_singleton] at hev
        rcases hev with rfl | rfl | rfl | hev | rfl | rfl
        all_goals first
          | exact key hlt hev
          | simp only [Event.step, Option.some.injEq, Prod.mk.injEq, reduceCtorEq,
              and_false] at hstep
      | srcCommitFail e1 hlt =>
        simp only [List.mem_cons, List.mem_append, List.not_mem_nil, or_false,
          or_assoc, List.mem_singleton] at hev
        rcases hev with rfl | rfl | rfl | hev | rfl | rfl | rfl | rfl
        all_goals first
          | exact absurd (key hlt hev) (by simp)
          | (simp only [Event.step, Option.some.injEq, Prod.mk.injEq, reduceCtorEq,
              and_false] at hstep; done)
          | (simp only [Event.step, Option.some.injEq, Prod.mk.injEq] at hstep
             obtain ⟨rfl, rfl, rfl⟩ := hstep
             rfl)
      | dstCommitFail e1 hlt =>
        simp only [List.mem_cons, List.mem_append, List.not_mem_nil, or_false,
          or_assoc, List.mem_singleton] at hev
        rcases hev with rfl | rfl | rfl | hev | rfl | rfl | rfl | rfl | rfl
        all_goals first
          | exact absurd (key hlt hev) (by simp)
          | (simp only [Event.step, Option.some.injEq, Prod.mk.injEq, reduceCtorEq,
              and_false] at hstep; done)
          | (simp only [Event.step, Option.some.injEq, Prod.mk.injEq] at hstep
             obtain ⟨rfl, rfl, rfl⟩ := hstep
             rfl)
      | vacuumFail e1 hlt =>
        simp only [List.mem_cons, List.mem_append, List.not_mem_nil, or_false,
          or_assoc, List.mem_singleton] at hev
        rcases hev with rfl | rfl | rfl | hev | rfl | rfl | rfl | rfl | rfl | rfl | rfl
        all_goals first
          | exact absurd (key hlt hev) (by simp)
          | (simp only [Event.step, Option.some.injEq, Prod.mk.injEq, reduceCtorEq,
              and_false] at hstep; done)
          | (simp only [Event.step, Option.some.injEq, Prod.mk.injEq] at hstep
             obtain ⟨rfl, rfl, rfl⟩ := hstep
             rfl)
      | success hlt =>
        simp only [List.mem_cons, List.mem_append, List.not_mem_nil, or_false,
          or_assoc, List.mem_singleton] at hev
        rcases hev with rfl | rfl | rfl | hev | rfl | rfl | rfl | rfl | rfl | rfl | rfl
        all_goals first
          | exact absurd (key hlt hev) (by simp)
          | simp only [Event.step, Option.some.injEq, Prod.mk.injEq, reduceCtorEq,
              and_false] at hstep
  · have h := InitialSync_trace env tables s
    generalize (runInitialSync env tables s).2 = trace at h
    generalize (runInitialSync env tables s).1 = res at h
    intro err hres
    subst hres
    rcases h with e1 | e1 | ⟨hb⟩
    · exact ⟨.srcBegin (some e1), by simp, .beginSrc, "", e1, rfl, rfl, rfl, rfl⟩
    · exact ⟨.dstBegin (some e1), by simp, .beginDst, "", e1, rfl, rfl, rfl, rfl⟩
    · generalize hr : some err = r at hb
      cases hb with
      | deferFail e1 =>
        cases hr
        exact ⟨.dstTxExec deferSql (some e1), by simp, .deferConstraints, "", e1, rfl, rfl,
          rfl, rfl⟩
      | syncFail hlt =>
        cases hr
        obtain ⟨pre, t, post, e, -, -, herr, hc⟩ := hlt.fail_calls
        have hm : Event.syncReturn t (some e) ∈
            syncedOk (notSkipped pre) ++ [Event.syncCall t, Event.syncReturn t (some e)] := by
          simp
        rw [← hc] at hm
        subst herr
        exact ⟨.syncReturn t (some e), by simp [(List.mem_filter.1 hm).1], .syncTable, t.Name,
          e, rfl, rfl, rfl, rfl⟩
      | srcCommitFail e1 hlt =>
        cases hr
        exact ⟨.srcCommit (some e1), by simp, .commitSrc, "", e1, rfl, rfl, rfl, rfl⟩
      | dstCommitFail e1 hlt =>
        cases hr
        exact ⟨.dstCommit (some e1), by simp, .commitDst, "", e1, rfl, rfl, rfl, rfl⟩
      | vacuumFail e1 hlt =>
        cases hr
        exact ⟨.newConnExec "vacuum analyze" (some e1), by simp, .vacuumAnalyze, "", e1, rfl,
          rfl, rfl, rfl⟩
      | success hlt => cases hr

/-- C9, on the run in which the copy into the destination fails for table `alerts`, and on
two messages of different steps. -/
theorem InitialSync_error_phase_witness :
    (runInitialSync alertsCopyFails.env sampleTables ()).1
        = some (Errorf (Phase.syncTable.text "alerts")
            (Errorf "copy to dst: " (.base "unique violation"))) ∧
    (Phase.syncTable.text "a" ++ "b: c" = Phase.syncTable.text "a: b" ++ "c" ∧
      Phase.syncTable = Phase.syncTable) :=
  ⟨(InitialSync_error_phase alertsCopyFails.env sampleTables ()).1
      (.syncReturn ⟨"alerts", "\"alerts\"", false⟩
        (some (Errorf "copy to dst: " (.base "unique violation"))))
      (by decide) .syncTable "alerts" _ rfl,
    by decide,
    (InitialSync_error_phase alertsCopyFails.env sampleTables ()).2.2 .syncTable .syncTable
      "a" "a: b" "b: c" "c" (by decide)⟩

/-- C7 fails on the code: the timer the goroutine creates (`time.NewTimer`) sends once. With
the context uncancelled through `k` intervals, the goroutine reports once at the start and,
when `k ≥ 1`, once more after the first 2 seconds, and then never again: for `k ≥ 2` there
are 2 reports, not `k + 1`. -/
theorem progressReports_once_after_start (t : Table) (rowCount : Int) (lines : Nat → Int)
    (k : Nat) :
    progressReports t rowCount lines 0 = [(0, progressMessage t (lines 0) rowCount)] ∧
    progressReports t rowCount lines (k + 1)
      = [(0, progressMessage t (lines 0) rowCount), (2, progressMessage t (lines 2) rowCount)] ∧
    (progressReports t rowCount lines (k + 2)).length = 2 ∧
    (progressReports t rowCount lines (k + 2)).length ≠ (k + 2) + 1 := by
  have h1 : ∀ j, progressReports t rowCount lines (j + 1)
      = [(0, progressMessage t (lines 0) rowCount),
          (2, progressMessage t (lines 2) rowCount)] := by
    intro j
    have hle : 2 ≤ 2 * (j + 1) := by omega
    simp [progressReports, progressLoop, selectDoneOrTimer, NewTimer, hle]
  refine ⟨?_, h1 k, ?_, ?_⟩
  · simp [progressReports, progressLoop, selectDoneOrTimer, NewTimer]
  · rw [h1 (k + 1)]; rfl
  · rw [h1 (k + 1)]; simp

/-! ## `lineCount` -/

theorem two_pow_bits (bits : Nat) (h : 0 < bits) : (2 : Int) ^ bits = 2 * 2 ^ (bits - 1) := by
  obtain ⟨b, rfl⟩ : ∃ b, bits = b + 1 := ⟨bits - 1, by omega⟩
  simp [pow_succ, mul_comm]

/-- An integer in the range of `int` is held as it is. -/
theorem wrapInt_of_range (bits : Nat) (h : 0 < bits) (x : Int)
    (h1 : -(2 : Int) ^ (bits - 1) ≤ x) (h2 : x < 2 ^ (bits - 1)) : wrapInt bits x = x := by
  unfold wrapInt
  rw [Int.emod_eq_of_lt (by omega) (by rw [two_pow_bits bits h]; omega)]
  omega

theorem wrapInt_add (bits : Nat) (x y : Int) :
    wrapInt bits (wrapInt bits x + y) = wrapInt bits (x + y) := by
  unfold wrapInt
  have : (x + 2 ^ (bits - 1)) % 2 ^ bits - 2 ^ (bits - 1) + y + 2 ^ (bits - 1)
      = (x + 2 ^ (bits - 1)) % 2 ^ bits + y := by ring
  rw [this, Int.emod_add_emod]
  congr 2
  ring

theorem wrapInt_zero (bits : Nat) (h : 0 < bits) : wrapInt bits 0 = 0 :=
  wrapInt_of_range bits h 0 (neg_nonpos.2 (by positivity)) (by positivity)

theorem bytesCount_eq_count (q : List Byte) (c : Byte) : bytesCount q c = q.count c := by
  induction q with
  | nil => rfl
  | cons b bs ihq =>
    simp only [bytesCount, ihq, List.count_cons]
    by_cases hb : b = c <;> simp [hb, Nat.add_comm]

theorem writeAll_returns (bits : Nat) (chunks : List (List Byte)) (lc : lineCount) :
    (lc.writeAll bits chunks).1 = chunks.map (fun p => ((p.length : Int), none)) := by
  induction chunks generalizing lc with
  | nil => rfl
  | cons p ps ih =>
    simp only [lineCount.writeAll, List.map_cons]
    rw [ih]
    rfl

/-- After a sequence of calls of `Write`, a counter that held `a` holds `a` plus the newlines
of the concatenation, wrapped to the range of `int`. -/
theorem writeAll_lines (bits : Nat) (chunks : List (List Byte)) (lc : lineCount) (a : Int)
    (ha : lc.n = wrapInt bits a) :
    (lc.writeAll bits chunks).2.Lines
      = wrapInt bits (a + (chunks.flatten.count 10 : Nat)) := by
  induction chunks generalizing lc a with
  | nil => simp [lineCount.writeAll, lineCount.Lines, ha]
  | cons p ps ih =>
    simp only [lineCount.writeAll]
    rw [ih (lc.Write bits p).2 (a + (p.count 10 : Nat))
      (by simp only [lineCount.Write, ha, wrapInt_add, bytesCount_eq_count])]
    simp only [List.flatten_cons, List.count_append]
    push_cast
    congr 1
    ring

theorem count_flatten_replicate (a b : Nat) (c : Byte) :
    (List.replicate a (List.replicate b c)).flatten.count c = a * b := by
  induction a with
  | zero => simp
  | succ a ih =>
    rw [List.replicate_succ, List.flatten_cons, List.count_append, ih]
    simp [List.count_replicate_self]
    ring

/-- C8 as stated fails. On a 64-bit `int`, after the `2^33` chunks of `2^30` newline bytes
are written to a zero counter, `Lines()` is `-2^63`, not the `2^63` newlines written: the
addition of `Write` has wrapped around. -/
theorem lineCount_wraps_at_overflow :
    ((lineCount.mk 0).writeAll 64 overflowChunks).2.Lines = -(2 : Int) ^ 63 ∧
    ((overflowChunks.flatten.count 10 : Nat) : Int) = 2 ^ 63 ∧
    ((lineCount.mk 0).writeAll 64 overflowChunks).2.Lines
      ≠ ((overflowChunks.flatten.count 10 : Nat) : Int) := by
  have hc : overflowChunks.flatten.count 10 = 2 ^ 63 := by
    unfold overflowChunks
    rw [count_flatten_replicate]
    norm_num
  have hl := writeAll_lines 64 overflowChunks ⟨0⟩ 0 (wrapInt_zero 64 (by decide)).symm
  rw [hc] at hl
  have hw : wrapInt 64 (0 + ((2 ^ 63 : Nat) : Int)) = -(2 : Int) ^ 63 := by
    unfold wrapInt
    norm_num
  rw [hw] at hl
  refine ⟨hl, by rw [hc]; norm_num, ?_⟩
  rw [hl, hc]
  norm_num

/-- C8, amended. For an `int` of `bits` bits, starting from a zero counter, in a sequence of
calls of `Write` every call returns the length of its chunk and a nil error, and afterwards
`Lines()` is the number of newline bytes in the concatenation of the chunks wrapped to the
range of `int`; it is exactly that number whenever the number is below `2^(bits-1)`. It
depends on the concatenation only, not on how the stream is cut into chunks, and is 0 for no
chunks. -/
theorem lineCount_counts_newlines (bits : Nat) (hbits : 0 < bits)
    (chunks : List (List Byte)) :
    ((lineCount.mk 0).writeAll bits chunks).1
      = chunks.map (fun p => ((p.length : Int), none)) ∧
    ((lineCount.mk 0).writeAll bits chunks).2.Lines
      = wrapInt bits (chunks.flatten.count 10 : Nat) ∧
    (((chunks.flatten.count 10 : Nat) : Int) < 2 ^ (bits - 1) →
      ((lineCount.mk 0).writeAll bits chunks).2.Lines = (chunks.flatten.count 10 : Nat)) ∧
    ((lineCount.mk 0).writeAll bits []).2.Lines = 0 := by
  have hl := writeAll_lines bits chunks ⟨0⟩ 0 (wrapInt_zero bits hbits).symm
  rw [Int.zero_add] at hl
  refine ⟨writeAll_returns bits chunks _, hl, ?_, rfl⟩
  intro hlt
  rw [hl]
  exact wrapInt_of_range bits hbits _
    (le_trans (neg_nonpos.2 (by positivity)) (Int.natCast_nonneg _)) hlt

/-- C8 amended, on a 64-bit `int` and a stream of three newlines in three chunks, one of them
empty. -/
theorem lineCount_counts_newlines_witness :
    ((lineCount.mk 0).writeAll 64 [[10, 20, 10], [], [10]]).2.Lines = (3 : Nat) :=
  ((lineCount_counts_newlines 64 (by decide) [[10, 20, 10], [], [10]]).2.2.1
    (by decide)).trans (by decide)

end Swo

namespace Calsub

/-! ## The in-place filter -/

theorem set_take_succ {α : Type} (l : List α) (n : Nat) (x : α) (hn : n < l.length) :
    (l.set n x).take (n + 1) = l.take n ++ [x] := by
  induction l generalizing n with
  | nil => simp at hn
  | cons a l ih =>
    cases n with
    | zero => simp
    | succ n =>
      simp only [List.length_cons, Nat.add_lt_add_iff_right] at hn
      simp [ih n hn]

theorem set_drop_of_lt {α : Type} (l : List α) (n m : Nat) (x : α) (hnm : n < m) :
    (l.set n x).drop m = l.drop m := by
  induction l generalizing n m with
  | nil => simp
  | cons a l ih =>
    cases m with
    | zero => omega
    | succ m =>
      cases n with
      | zero => simp
      | succ n => simpa using ih n m (by omega)

theorem getD_of_drop_eq {α : Type} (l1 l2 : List α) (i : Nat) (d : α)
    (h : l1.drop i = l2.drop i) : l1.getD i d = l2.getD i d := by
  have : (l1.drop i)[0]? = (l2.drop i)[0]? := by rw [h]
  simp only [List.getElem?_drop, Nat.add_zero] at this
  simp [List.getD_eq_getElem?_getD, this]

theorem getD_set_self {α : Type} (h : List (List α)) (n : Nat) (v : List α)
    (hn : n < h.length) : (h.set n v).getD n [] = v := by
  simp [List.getD_eq_getElem?_getD, hn]

theorem count_filter_ite {α : Type} [DecidableEq α] (p : α → Bool) (l : List α) (s : α) :
    (l.filter p).count s = if p s = true then l.count s else 0 := by
  induction l with
  | nil => simp
  | cons a l ih =>
    by_cases ha : p a = true
    · rw [List.filter_cons_of_pos ha, List.count_cons, List.count_cons, ih]
      by_cases hs : p s = true
      · simp [hs]
      · have hne : ¬ (a == s) = true := by
          intro h
          have := eq_of_beq h
          rw [this] at ha
          exact hs ha
        simp [hs, hne]
    · rw [List.filter_cons_of_neg ha, List.count_cons, ih]
      by_cases hs : p s = true
      · have hne : ¬ (a == s) = true := by
          intro h
          have := eq_of_beq h
          rw [this] at ha
          exact ha hs
        simp [hs, hne]
      · simp [hs]

variable {Shift ID : Type} [Inhabited Shift] [DecidableEq ID]

/-- One turn of the loop keeps the invariant. -/
theorem inv_step (UserID : Shift → ID) (userID : ID) (A : List Shift) (shifts : Slice)
    (i : Nat) (st : Heap Shift × Slice) (hlen : shifts.len ≤ shifts.cap)
    (hA : A.length = shifts.cap) (hi : i < shifts.len)
    (hinv : Inv UserID userID A shifts i st) :
    Inv UserID userID A shifts (i + 1) (loopStep UserID userID shifts st i) := by
  obtain ⟨h1, h2, h3, h4, h5, h6⟩ := hinv
  have hiA : i < A.length := by omega
  have hs : shifts.index st.1 i = A[i] := by
    unfold Slice.index
    rw [getD_of_drop_eq _ _ i default h6]
    simp [List.getD_eq_getElem?_getD, hiA]
  have htake : A.take (i + 1) = A.take i ++ [A[i]] := by
    rw [List.take_succ]; simp [hiA]
  have hdrop : (st.1.getD shifts.arr []).drop (i + 1) = A.drop (i + 1) := by
    have := congrArg (List.drop 1) h6
    simpa [List.drop_drop, Nat.add_comm] using this
  unfold loopStep
  simp only [hs]
  by_cases hu : UserID A[i] = userID
  · have hne : (UserID A[i] != userID) = false := by simp [hu]
    simp only [hne, Bool.false_eq_true, ↓reduceIte]
    have hlt : st.2.len < st.2.cap := by omega
    have harr : shifts.arr < st.1.length := by
      by_contra hc
      have : st.1.getD shifts.arr [] = [] := by
        simp [List.getD_eq_getElem?_getD, List.getElem?_eq_none (Nat.le_of_not_lt hc)]
      rw [this] at h4
      simp at h4
      omega
    unfold append
    simp only [hlt, ↓reduceIte, h1]
    unfold Inv
    dsimp only
    rw [getD_set_self _ _ _ harr]
    refine ⟨rfl, h2, by omega, by rw [List.length_set]; exact h4, ?_, ?_⟩
    · rw [set_take_succ _ _ _ (by omega), h5, htake, List.filter_append]
      simp [hu]
    · rw [set_drop_of_lt _ _ _ _ (by omega), hdrop]
  · have hne : (UserID A[i] != userID) = true := by simp [hu]
    simp only [hne, ↓reduceIte]
    refine ⟨h1, h2, by omega, h4, ?_, hdrop⟩
    rw [h5, htake, List.filter_append]
    simp [hu]

theorem inv_loop (UserID : Shift → ID) (userID : ID) (shifts : Slice) (h : Heap Shift)
    (hlen : shifts.len ≤ shifts.cap) (hcap : (h.getD shifts.arr []).length = shifts.cap)
    (n : Nat) (hn : n ≤ shifts.len) :
    Inv UserID userID (h.getD shifts.arr []) shifts n
      ((List.range n).foldl (loopStep UserID userID shifts) (h, { shifts with len := 0 })) := by
  induction n with
  | zero => simp [Inv]
  | succ n ih =>
    rw [List.range_succ, List.foldl_append]
    exact inv_step UserID userID _ shifts n _ hlen hcap (by omega) (ih (by omega))

/-- C10. For a slice `shifts` within its capacity, the slice `filtered` that `ServeICalData`
passes on holds exactly the elements of `shifts` whose `UserID` is the one of the
subscription, in their order and with their multiplicity (it is the filter of the list), and
it lies in the backing array of `shifts`: the writes of `append` into the array that is being
read lose and alter no matching shift, and no shift of another user is present. -/
theorem ServeICalData_filter_in_place [DecidableEq Shift] (UserID : Shift → ID) (userID : ID)
    (h : Heap Shift) (shifts : Slice) (hlen : shifts.len ≤ shifts.cap)
    (hcap : (h.getD shifts.arr []).length = shifts.cap) :
    (filterShifts UserID userID h shifts).2.toList (filterShifts UserID userID h shifts).1
      = (shifts.toList h).filter (fun s => decide (UserID s = userID)) ∧
    (filterShifts UserID userID h shifts).2.arr = shifts.arr ∧
    (∀ s ∈ (filterShifts UserID userID h shifts).2.toList
        (filterShifts UserID userID h shifts).1, UserID s = userID) ∧
    (∀ s, ((filterShifts UserID userID h shifts).2.toList
        (filterShifts UserID userID h shifts).1).count s
      = if UserID s = userID then (shifts.toList h).count s else 0) := by
  obtain ⟨h1, h2, h3, h4, h5, h6⟩ :=
    inv_loop UserID userID shifts h hlen hcap shifts.len (Nat.le_refl _)
  have heq : filterShifts UserID userID h shifts
      = (List.range shifts.len).foldl (loopStep UserID userID shifts)
          (h, { shifts with len := 0 }) :=
    rfl
  have hmain : (filterShifts UserID userID h shifts).2.toList
        (filterShifts UserID userID h shifts).1
      = (shifts.toList h).filter (fun s => decide (UserID s = userID)) := by
    rw [heq]
    unfold Slice.toList
    rw [h1, h5]
  refine ⟨hmain, by rw [heq]; exact h1, ?_, ?_⟩
  · intro s hs
    rw [hmain] at hs
    simpa using (List.mem_filter.1 hs).2
  · intro s
    rw [hmain, count_filter_ite]
    simp

/-- C10, on a slice of five shifts of which three are the user's. -/
theorem ServeICalData_filter_in_place_witness :
    (filterShifts SampleShift.UserID "ann" sampleHeap sampleShifts).2.toList
        (filterShifts SampleShift.UserID "ann" sampleHeap sampleShifts).1
      = [⟨"ann", 1⟩, ⟨"ann", 3⟩, ⟨"ann", 5⟩] ∧
    (filterShifts SampleShift.UserID "ann" sampleHeap sampleShifts).2.arr = 1 :=
  ⟨(ServeICalData_filter_in_place SampleShift.UserID "ann" sampleHeap sampleShifts
      (by decide) (by decide)).1.trans (by decide),
    (ServeICalData_filter_in_place SampleShift.UserID "ann" sampleHeap sampleShifts
      (by decide) (by decide)).2.1⟩

end Calsub
